import Mathlib

/-!
Shallow embedding of the hwapi hardware-lookup service (Rust) in Lean 4.

Strings are modelled as `List Char` (the Rust code operates on `&str`; nom's
`take` for `&str` works character-wise, and every delimiter involved is ASCII,
where bytes and characters coincide).  Fallible Rust code is modelled with
`Option`/`Except`; a Rust `panic!` (for instance `.unwrap()` on an `Err`, or
an out-of-bounds index) is modelled by a dedicated `panic` outcome, kept
distinct from a returned structured error.

Sources embedded here:
  - src/parsing/src/pcie/mod.rs   (PcieCache::find, parse_device_identifier)
  - src/src/usb/mod.rs            (UsbCache::find, parse_device_identifier)
  - src/src/cpu.rs                (CpuCache, generate_index_entry, find_model,
                                   calculate_model_score)
  - src/parsing/src/cpu/intel/parser.rs (parse_csv per-column loop)
-/

namespace Hwapi

/-- Result of a fallible Rust computation. `err` is a structured error value
returned to the caller (the payload of `nom::Err` is irrelevant to every
property treated here and is dropped); `panic` is abnormal termination
(`unwrap` on a failed parse, index out of bounds). -/
inductive PResult (α : Type) where
  | ok : α → PResult α
  | err : PResult α
  | panic : PResult α
deriving DecidableEq, Repr

/-- Numeric value of a single hex digit, `none` for a non-hex character. -/
def hexDigitVal (c : Char) : Option Nat :=
  if '0' ≤ c ∧ c ≤ '9' then some (c.toNat - '0'.toNat)
  else if 'a' ≤ c ∧ c ≤ 'f' then some (c.toNat - 'a'.toNat + 10)
  else if 'A' ≤ c ∧ c ≤ 'F' then some (c.toNat - 'A'.toNat + 10)
  else none

/-- The numeric value of a hex string (meaningful when all chars are hex). -/
def hexValue (s : List Char) : Nat :=
  s.foldl (fun a c => 16 * a + (hexDigitVal c).getD 0) 0

/-- Model of Rust `u16::from_str_radix(s, 16)`: an optional leading `'+'`,
then a nonempty run of hex digits; `none` models `Err(ParseIntError)`.
(All fields parsed by this program are 4 hex digits, so the `u16` range,
`≤ 0xFFFF`, can never overflow.) -/
def fromStrRadix16 (s : List Char) : Option Nat :=
  let digits := match s with
    | c :: rest => if c = '+' then rest else c :: rest
    | [] => []
  if digits.isEmpty then none
  else digits.foldlM (fun acc c => (hexDigitVal c).map (fun d => 16 * acc + d)) 0

/-! nom combinators, specialised to `List Char` input.  Each returns
`some (remaining, output)` on success, mirroring nom's `Ok((rest, out))`. -/

/-- nom `tag(t)`. -/
def nomTag (t input : List Char) : Option (List Char × List Char) :=
  if t.isPrefixOf input then some (input.drop t.length, t) else none

/-- nom `take(n)` (character counted, as for `&str` input). -/
def nomTake (n : Nat) (input : List Char) : Option (List Char × List Char) :=
  if n ≤ input.length then some (input.drop n, input.take n) else none

/-- nom `char(c)`. -/
def nomChar (c : Char) (input : List Char) : Option (List Char × Char) :=
  match input with
  | [] => none
  | x :: rest => if x = c then some (rest, c) else none

/-- nom `take_until(t)` (complete): consume up to the first occurrence of `t`,
which stays in the remaining input; fail when `t` never occurs. -/
def takeUntil (t : List Char) : List Char → Option (List Char × List Char)
  | [] => if t.isEmpty then some ([], []) else none
  | c :: rest =>
    if t.isPrefixOf (c :: rest) then some (c :: rest, [])
    else
      match takeUntil t rest with
      | some (r, consumed) => some (r, c :: consumed)
      | none => none

/-- nom `take_while(p)` (complete): never fails, returns `(remaining, taken)`. -/
def takeWhileNom (p : Char → Bool) : List Char → List Char × List Char
  | [] => ([], [])
  | c :: rest =>
    if p c then
      let r := takeWhileNom p rest
      (r.1, c :: r.2)
    else (c :: rest, [])

end Hwapi

namespace Pcie

open Hwapi

/-- src/parsing/src/pcie/mod.rs `Subsystem`. -/
structure Subsystem where
  id : Nat
  name : List Char
deriving DecidableEq, Repr

/-- src/parsing/src/pcie/mod.rs `Device`. -/
structure Device where
  id : Nat
  name : List Char
  subsystems : List Subsystem
deriving DecidableEq, Repr

/-- src/parsing/src/pcie/mod.rs `Vendor`.  The Rust `HashMap<u16, Device>`
keyed by `Device.id` is modelled as a list looked up with `List.find?`
(device ids are unique within a vendor, per the database format). -/
structure Vendor where
  id : Nat
  name : List Char
  devices : List Device
deriving DecidableEq, Repr

/-- src/parsing/src/pcie/mod.rs `parse_device_identifier`:
`delimited(tag("PCI\VEN_"), take(4), char('&'))`, then
`preceded(tag("DEV_"), take(4))`, then, only when the remainder starts with
`"&SU"`, `preceded(tag("&SUBSYS_"), take(4))`; finally the three captured
4-character fields go through `u16::from_str_radix(_, 16).unwrap()`
(a failed radix parse is a panic, not a returned error). -/
def parse_device_identifier (input : List Char) : PResult (Nat × Nat × Option Nat) :=
  match nomTag ("PCI\\VEN_".data) input with
  | none => .err
  | some (r1, _) =>
  match nomTake 4 r1 with
  | none => .err
  | some (r2, vid) =>
  match nomChar '&' r2 with
  | none => .err
  | some (r3, _) =>
  match nomTag ("DEV_".data) r3 with
  | none => .err
  | some (r4, _) =>
  match nomTake 4 r4 with
  | none => .err
  | some (r5, did) =>
  -- ssid is parsed only when the remainder starts with "&SU"
  let ssidStep : PResult (Option (List Char)) :=
    if ("&SU".data).isPrefixOf r5 then
      match nomTag ("&SUBSYS_".data) r5 with
      | none => .err
      | some (r6, _) =>
        match nomTake 4 r6 with
        | none => .err
        | some (_, ssid) => .ok (some ssid)
    else .ok none
  match ssidStep with
  | .err => .err
  | .panic => .panic
  | .ok ssid =>
    match fromStrRadix16 vid with
    | none => .panic
    | some v =>
    match fromStrRadix16 did with
    | none => .panic
    | some d =>
    match ssid with
    | none => .ok (v, d, none)
    | some s =>
      match fromStrRadix16 s with
      | none => .panic
      | some sv => .ok (v, d, some sv)

/-- src/parsing/src/pcie/mod.rs `PcieCache` (the vendor `HashMap` keyed by
`Vendor.id` is modelled as a list looked up with `List.find?`). -/
structure PcieCache where
  vendors : List Vendor
deriving DecidableEq, Repr

/-- src/parsing/src/pcie/mod.rs `PcieCache::find`: parse the identifier
(propagating its error), look the vendor up by the parsed vendor id, under it
the device by the parsed device id, and in the device's subsystem list search
`s.id == parsed_identifier.1` — the parsed *device* id (this is what the
source does; the parsed subsystem id `parsed_identifier.2` is never used). -/
def PcieCache.find (cache : PcieCache) (input : List Char) :
    PResult (Option Vendor × Option Device × Option Subsystem) :=
  match parse_device_identifier input with
  | .err => .err
  | .panic => .panic
  | .ok parsed =>
    let vendor := cache.vendors.find? (fun v => v.id == parsed.1)
    let device := match vendor with
      | none => none
      | some ven => ven.devices.find? (fun d => d.id == parsed.2.1)
    let subsystem := match device with
      | none => none
      | some dev => dev.subsystems.find? (fun s => s.id == parsed.2.1)
    .ok (vendor, device, subsystem)

end Pcie

namespace Usb

open Hwapi

/-- src/src/usb/mod.rs `Device`. -/
structure Device where
  id : Nat
  name : List Char
deriving DecidableEq, Repr

/-- src/src/usb/mod.rs `Vendor`. -/
structure Vendor where
  id : Nat
  name : List Char
  devices : List Device
deriving DecidableEq, Repr

/-- src/src/usb/mod.rs `parse_device_identifier`:
`delimited(tag("USB\VID_"), take(4), take(1))` — note the separator after the
VID field is `take(1)`, consuming one arbitrary character positionally —
then `preceded(tag("PID_"), take(4))`, then
`u16::from_str_radix(_, 16).unwrap()` on both fields (panic on failure). -/
def parse_device_identifier (device_string : List Char) : PResult (Nat × Nat) :=
  match nomTag ("USB\\VID_".data) device_string with
  | none => .err
  | some (r1, _) =>
  match nomTake 4 r1 with
  | none => .err
  | some (r2, vid) =>
  match nomTake 1 r2 with
  | none => .err
  | some (r3, _) =>
  match nomTag ("PID_".data) r3 with
  | none => .err
  | some (r4, _) =>
  match nomTake 4 r4 with
  | none => .err
  | some (_, pid) =>
  match fromStrRadix16 vid with
  | none => .panic
  | some v =>
  match fromStrRadix16 pid with
  | none => .panic
  | some p => .ok (v, p)

/-- src/src/usb/mod.rs `UsbCache`. -/
structure UsbCache where
  vendors : List Vendor
deriving DecidableEq, Repr

/-- src/src/usb/mod.rs `UsbCache::find`: parse the identifier (propagating
its error — the only returned-error condition), find the first vendor with
the parsed vendor id (`.filter(..).nth(0)`), and only when a vendor was
found, the first of its devices with the parsed product id. -/
def UsbCache.find (cache : UsbCache) (input : List Char) :
    PResult (Option Vendor × Option Device) :=
  match parse_device_identifier input with
  | .err => .err
  | .panic => .panic
  | .ok parsed =>
    let matching_vendor := cache.vendors.find? (fun v => v.id == parsed.1)
    let device := match matching_vendor with
      | none => none
      | some vendor => vendor.devices.find? (fun d => d.id == parsed.2)
    .ok (matching_vendor, device)

end Usb

namespace CpuMod

open Hwapi

/-- src/src/cpu.rs `Cpu` (the attribute `HashMap` is modelled as an
association list in insertion order; no property here depends on map order
or on key overwriting). -/
structure Cpu where
  name : List Char
  attributes : List (List Char × List Char)
deriving DecidableEq, Repr

/-- src/src/cpu.rs `IndexEntry`.  The Rust field `prefix` is a reserved
keyword in Lean and is rendered `pfx`; the `HashSet<String>` of tags is
modelled as a duplicate-free list in first-insertion order. -/
structure IndexEntry where
  model : List Char
  pfx : List Char
  suffix : List Char
  tags : List (List Char)
  index : Nat
deriving DecidableEq, Repr

/-- Rust `input.split(' ')`: split at every single space; consecutive
separators produce empty tokens, and the result is never empty. -/
def splitChar (sep : Char) : List Char → List (List Char)
  | [] => [[]]
  | c :: rest =>
    let r := splitChar sep rest
    if c = sep then [] :: r
    else
      match r with
      | [] => [[c]]
      | t :: ts => (c :: t) :: ts

/-- Rust `s.contains(pat)`: `pat` occurs as a contiguous substring of `s`. -/
def isSubstring (pat : List Char) : List Char → Bool
  | [] => pat.isEmpty
  | c :: rest => pat.isPrefixOf (c :: rest) || isSubstring pat rest

/-- src/src/cpu.rs `calculate_model_score`: for every character of the
token, `+2` if it is an ASCII digit and `−4` if it is in `['.', '(', ')']`. -/
def calculate_model_score (token : List Char) : Int :=
  token.foldl
    (fun score c =>
      (score + (if c.isDigit then 2 else 0)) + (if c ∈ ['.', '(', ')'] then -4 else 0))
    0

/-- The token-selection loop of src/src/cpu.rs `find_model`: running state
`(best_fit, high_score)` starting at `("", -10)`, updated whenever a token
scores strictly higher than the running high score. -/
def find_model_go (best_fit : List Char) (high_score : Int) :
    List (List Char) → List Char
  | [] => best_fit
  | token :: rest =>
    let score := calculate_model_score token
    if score > high_score then find_model_go token score rest
    else find_model_go best_fit high_score rest

/-- The base selection of src/src/cpu.rs `find_model` (everything before the
three corrective overrides). -/
def find_model_base (input : List Char) : List Char :=
  find_model_go [] (-10) (splitChar ' ' input)

/-- Rust `t.len() == 2 && t.starts_with('i')` on a token (lengths counted in
characters; they agree with Rust's byte count because a token starting with
the ASCII `'i'` and of byte length 2 is exactly `'i'` plus one ASCII char). -/
def isITag (t : List Char) : Bool :=
  t.length == 2 && ("i".data).isPrefixOf t

/-- src/src/cpu.rs `find_model`: the base token selection followed by the
three corrective overrides (Intel 14th gen, AMD PRO, Intel mobile `M`),
checked in source order with fall-through when an override does not apply. -/
def find_model (input : List Char) : List Char :=
  let best_fit := find_model_base input
  -- override 1: Intel 14th gen, `iX processor 14XYZ` vs `iX-14XYZ`
  if isSubstring ("Intel".data) input && ("14".data).isPrefixOf best_fit then
    match (splitChar ' ' input).find? isITag with
    | some t => t ++ ['-'] ++ best_fit
    | none =>
      if isSubstring ("AMD".data) input && isSubstring ("PRO".data) input then
        ("PRO ".data) ++ best_fit
      else if isSubstring ("Intel".data) input && isSubstring (" M ".data) input
          && best_fit.length == 3 then
        match (splitChar ' ' input).find? isITag with
        | some t => t ++ ['-'] ++ best_fit ++ ['M']
        | none => best_fit
      else best_fit
  -- override 2: Ryzen PRO lineup
  else if isSubstring ("AMD".data) input && isSubstring ("PRO".data) input then
    ("PRO ".data) ++ best_fit
  -- override 3: `iX CPU M 123` vs `iX-123M`
  else if isSubstring ("Intel".data) input && isSubstring (" M ".data) input
      && best_fit.length == 3 then
    match (splitChar ' ' input).find? isITag with
    | some t => t ++ ['-'] ++ best_fit ++ ['M']
    | none => best_fit
  else best_fit

/-- `HashSet::insert`: add the tag unless already present (model keeps
first-insertion order, which no property here depends on). -/
def insertTag (tags : List (List Char)) (t : List Char) : List (List Char) :=
  if tags.contains t then tags else tags ++ [t]

/-- src/src/cpu.rs `generate_index_entry`: take the model token from
`find_model`; `take_until("-")` splits off everything before the first `'-'`
(on failure the code assumes there is no dash and uses `("", model_token)`);
`take_while(is_ascii_digit)` (complete — it cannot fail, so the source's
error branch for it is dead code) splits the pre-dash part; the struct is
then built from the raw nom tuples: `model` from the take_while *remainder*,
`prefix` from the take_until *remainder*, `suffix` from the take_while
*output*.  `tags` collects the space-separated words of the full name except
`"Intel"`, `"AMD"`, `"Processor"` and the name itself. -/
def generate_index_entry (name : List Char) (index : Nat) :
    Except (List Char) IndexEntry :=
  let model_token := find_model name
  let prefix_combinator : List Char × List Char :=
    match takeUntil ['-'] model_token with
    | some p => p
    | none => ([], model_token)
  let model_combinator : List Char × List Char :=
    takeWhileNom Char.isDigit prefix_combinator.2
  let blacklist : List (List Char) :=
    ["Intel".data, "AMD".data, "Processor".data, name]
  let tags :=
    ((splitChar ' ' name).filter (fun t => !blacklist.contains t)).foldl insertTag []
  .ok
    { model := model_combinator.1
      pfx := prefix_combinator.1
      suffix := model_combinator.2
      tags := tags
      index := index }

/-- The index-building loop of src/src/cpu.rs `CpuCache::new` (shared by the
Intel and AMD catalogs): for each catalog entry, in order and with its
position, push the generated index entry; on error, log and skip. -/
def build_index_go (i : Nat) : List (List Char) → List IndexEntry
  | [] => []
  | name :: rest =>
    match generate_index_entry name i with
    | .ok idx => idx :: build_index_go (i + 1) rest
    | .error _ => build_index_go (i + 1) rest

/-- Index construction over a catalog's list of CPU names. -/
def build_index (names : List (List Char)) : List IndexEntry :=
  build_index_go 0 names

/-- src/src/cpu.rs `CpuCache`. -/
structure CpuCache where
  intel_cpus : List Cpu
  intel_index : List IndexEntry
  amd_cpus : List Cpu
  amd_index : List IndexEntry
deriving DecidableEq, Repr

/-- Result of `CpuCache::find`: an owned `Cpu`, a boxed error (its message
string), or a panic (only possible through an out-of-bounds back-reference,
which `CpuCache::new` never produces). -/
inductive CpuFindResult where
  | ok : Cpu → CpuFindResult
  | err : List Char → CpuFindResult
  | panic : CpuFindResult
deriving DecidableEq, Repr

/-- The candidate-scoring of src/src/cpu.rs `CpuCache::find`: start at 0,
`-10` if the prefixes differ, `-10` if the suffixes differ, `+5` for every
tag of the query present in the candidate's tag set. -/
def score_entry (idx_for_input idx_entry : IndexEntry) : Int :=
  ((0 + (if idx_for_input.pfx ≠ idx_entry.pfx then -10 else 0))
    + (if idx_for_input.suffix ≠ idx_entry.suffix then -10 else 0))
    + 5 * ((idx_for_input.tags.filter (fun t => idx_entry.tags.contains t)).length : Int)

/-- The best-candidate loop of src/src/cpu.rs `CpuCache::find`: running
state `(best_score, best_idx_match)` starting at `(-100, None)`, updated
whenever a candidate scores strictly higher than the running best. -/
def select_best_go (q : IndexEntry) (best_score : Int) (best : Option IndexEntry) :
    List IndexEntry → Option IndexEntry
  | [] => best
  | e :: rest =>
    let score := score_entry q e
    if score > best_score then select_best_go q score (some e) rest
    else select_best_go q best_score best rest

/-- src/src/cpu.rs `CpuCache::find`: pick the AMD index when the input
contains `"AMD"`, else the Intel index; generate an index entry for the
input (its error would propagate, but generation never fails); filter the
index to entries whose `model` equals the query's `model`; run the
best-candidate loop; on `None` return the error `"No close matches found"`,
otherwise return the catalog entry at the winner's back-reference (Rust
indexing: out of bounds would panic; the Intel branch's owned-string
materialization is the identity here). -/
def CpuCache.find (cache : CpuCache) (input : List Char) : CpuFindResult :=
  let index := if isSubstring ("AMD".data) input then cache.amd_index
    else cache.intel_index
  match generate_index_entry input 0 with
  | .error e => .err e
  | .ok idx_for_input =>
    let similar_cpus := index.filter (fun idx => idx.model == idx_for_input.model)
    match select_best_go idx_for_input (-100) none similar_cpus with
    | none => .err ("No close matches found".data)
    | some idx_entry =>
      if isSubstring ("AMD".data) input then
        match cache.amd_cpus[idx_entry.index]? with
        | none => .panic
        | some cpu => .ok cpu
      else
        match cache.intel_cpus[idx_entry.index]? with
        | none => .panic
        | some found_cpu => .ok found_cpu

end CpuMod

namespace IntelCsv

open Hwapi CpuMod

/-- The attribute collection for one CPU column `i` in the per-record loop of
src/parsing/src/cpu/intel/parser.rs `parse_csv`: for every record,
`record[i + 1]` (Rust indexing — out of bounds panics, modelled `none`), and
when that cell is non-empty, insert `(record[0], cell)`. -/
def cpu_attrs (i : Nat) : List (List (List Char)) → Option (List (List Char × List Char))
  | [] => some []
  | record :: rest =>
    match record[i + 1]? with
    | none => none
    | some entry =>
      if entry.isEmpty then cpu_attrs i rest
      else
        match record.head? with
        | none => none
        | some label =>
          match cpu_attrs i rest with
          | none => none
          | some attrs => some ((label, entry) :: attrs)

/-- The per-column loop of src/parsing/src/cpu/intel/parser.rs `parse_csv`
(`for (i, cpu_name) in lexer_output.cpus.iter().enumerate()`), with `i`
carried explicitly: one `Cpu` per name, in order; a panic anywhere loses the
whole result. -/
def parse_csv_go (records : List (List (List Char))) (i : Nat) :
    List (List Char) → Option (List Cpu)
  | [] => some []
  | name :: rest =>
    match cpu_attrs i records with
    | none => none
    | some attrs =>
      match parse_csv_go records (i + 1) rest with
      | none => none
      | some cpus => some ({ name := name, attributes := attrs } :: cpus)

/-- src/parsing/src/cpu/intel/parser.rs `parse_csv`, from the lexer output
(the list of CPU names and the attribute records) to the CPU list; `none`
models a panic of the enclosing process. -/
def parse_csv_columns (cpus : List (List Char)) (records : List (List (List Char))) :
    Option (List Cpu) :=
  parse_csv_go records 0 cpus

end IntelCsv

namespace Hwapi

/-- A 4-hex-digit field, the shape `take(4)` captures in a well-formed
identifier: exactly 4 characters, all hex digits. -/
def isHex4 (s : List Char) : Prop :=
  s.length = 4 ∧ ∀ c ∈ s, (hexDigitVal c).isSome

instance (s : List Char) : Decidable (isHex4 s) := by
  unfold isHex4; infer_instance

end Hwapi

namespace Examples

open Hwapi

/-- A device whose subsystem list holds ids `0x7777` and `0x1633`, in that
order. -/
def pcieDeviceA : Pcie.Device :=
  { id := 0x1633
    name := "Renoir PCIe GPP Bridge".data
    subsystems :=
      [{ id := 0x7777, name := "by subsystem id".data },
       { id := 0x1633, name := "by device id".data }] }

/-- The vendor owning `pcieDeviceA`. -/
def pcieVendorA : Pcie.Vendor :=
  { id := 0x1022
    name := "Advanced Micro Devices".data
    devices := [pcieDeviceA] }

/-- A one-vendor PCIe cache around `pcieVendorA`. -/
def pcieCacheA : Pcie.PcieCache :=
  { vendors := [pcieVendorA] }

/-- A PCI identifier whose parsed triple is `(0x1022, 0x1633, some 0x7777)`. -/
def pcieInputA : List Char := "PCI\\VEN_1022&DEV_1633&SUBSYS_77771022&REV_00".data

/-- An empty USB cache. -/
def usbCacheA : Usb.UsbCache := { vendors := [] }

/-- The USB identifier from the source's unit test. -/
def usbInputA : List Char := "USB\\VID_1234&PID_5678\\9479493".data

/-- The query string used against the one-entry AMD cache. -/
def cpuInputA : List Char := "AMD 9999".data

/-- A one-entry AMD-side CPU cache built around the name `"AMD 9999"`. -/
def cpuA : CpuMod.Cpu := { name := "AMD 9999".data, attributes := [] }

/-- The index entry `generate_index_entry` produces for `"AMD 9999"` at 0
(the digit run of the pre-dash part lands in `suffix`, the rest in `model`). -/
def idxA : CpuMod.IndexEntry :=
  { model := [], pfx := [], suffix := "9999".data, tags := ["9999".data], index := 0 }

/-- A CPU cache whose AMD catalog is just `cpuA`, indexed by `idxA`. -/
def cpuCacheA : CpuMod.CpuCache :=
  { intel_cpus := [], intel_index := [], amd_cpus := [cpuA], amd_index := [idxA] }

end Examples

/-! ### Generic lemmas about the combinator layer -/

namespace Hwapi

theorem hexDigitVal_plus : hexDigitVal '+' = none := by decide

theorem foldlM_hexDigitVal (l : List Char) :
    ∀ acc : Nat, (∀ c ∈ l, (hexDigitVal c).isSome) →
      l.foldlM (fun acc c => (hexDigitVal c).map (fun d => 16 * acc + d)) acc
        = some (l.foldl (fun a c => 16 * a + (hexDigitVal c).getD 0) acc) := by
  induction l with
  | nil => intro acc _; rfl
  | cons c rest ih =>
    intro acc h
    obtain ⟨d, hd⟩ := Option.isSome_iff_exists.mp (h c (List.mem_cons_self c rest))
    have hrest : ∀ x ∈ rest, (hexDigitVal x).isSome :=
      fun x hx => h x (List.mem_cons_of_mem _ hx)
    simp [List.foldlM_cons, hd, List.foldl_cons, ih _ hrest]

theorem fromStrRadix16_hex (l : List Char) (hne : l ≠ [])
    (h : ∀ c ∈ l, (hexDigitVal c).isSome) :
    fromStrRadix16 l = some (hexValue l) := by
  match l, hne with
  | c :: rest, _ =>
    have hplus : c ≠ '+' := by
      intro hc
      have := h c (List.mem_cons_self c rest)
      rw [hc, hexDigitVal_plus] at this
      simp at this
    unfold fromStrRadix16 hexValue
    simp only [if_neg hplus, List.isEmpty_cons, Bool.false_eq_true, if_false]
    exact foldlM_hexDigitVal _ _ h

theorem isPrefixOf_append_self (t r : List Char) : t.isPrefixOf (t ++ r) = true := by
  induction t with
  | nil => simp [List.isPrefixOf]
  | cons c rest ih => simp [List.isPrefixOf, ih]

theorem nomTag_self_append (t r : List Char) : nomTag t (t ++ r) = some (r, t) := by
  unfold nomTag
  simp [isPrefixOf_append_self, List.drop_left]

theorem nomTake_append (n : Nat) (l r : List Char) (h : l.length = n) :
    nomTake n (l ++ r) = some (r, l) := by
  subst h
  unfold nomTake
  simp [List.take_left, List.drop_left, Nat.le_add_right]

theorem nomChar_cons (c : Char) (r : List Char) : nomChar c (c :: r) = some (r, c) := by
  simp [nomChar]

theorem takeWhileNom_eq (p : Char → Bool) (l : List Char) :
    takeWhileNom p l = (l.dropWhile p, l.takeWhile p) := by
  induction l with
  | nil => rfl
  | cons c rest ih =>
    unfold takeWhileNom
    by_cases hp : p c
    · simp [hp, List.dropWhile_cons, List.takeWhile_cons, ih]
    · simp [hp, List.dropWhile_cons, List.takeWhile_cons]

theorem takeUntil_singleton (ch : Char) (l : List Char) :
    takeUntil [ch] l =
      if ch ∈ l then
        some (l.dropWhile (fun c => c != ch), l.takeWhile (fun c => c != ch))
      else none := by
  induction l with
  | nil => simp [takeUntil]
  | cons c rest ih =>
    unfold takeUntil
    by_cases hc : c = ch
    · subst hc
      simp [List.isPrefixOf, List.dropWhile_cons, List.takeWhile_cons]
    · have hpre : ([ch]).isPrefixOf (c :: rest) = false := by
        simp [List.isPrefixOf]
        intro hcc
        exact absurd hcc.symm hc
      rw [hpre]
      simp only [Bool.false_eq_true, if_false, ih]
      by_cases hm : ch ∈ rest
      · simp [hm, hc, List.dropWhile_cons, List.takeWhile_cons, bne_iff_ne,
          Ne.symm, (Ne.intro hc)]
      · have : ¬ ch ∈ c :: rest := by
          intro hmem
          rcases List.mem_cons.mp hmem with h1 | h2
          · exact hc h1.symm
          · exact hm h2
        simp [hm, this]

theorem find_decomp {α : Type} (p : α → Bool) (l : List α) (a : α)
    (h : l.find? p = some a) :
    p a = true ∧ ∃ l₁ l₂, l = l₁ ++ a :: l₂ ∧ ∀ x ∈ l₁, p x = false := by
  induction l with
  | nil => simp [List.find?] at h
  | cons c rest ih =>
    rw [List.find?_cons] at h
    by_cases hpc : p c
    · simp [hpc] at h
      subst h
      exact ⟨hpc, [], rest, rfl, by simp⟩
    · simp [hpc] at h
      obtain ⟨hpa, l₁, l₂, hdec, hall⟩ := ih h
      refine ⟨hpa, c :: l₁, l₂, by simp [hdec], ?_⟩
      intro x hx
      rcases List.mem_cons.mp hx with h1 | h2
      · subst h1; simpa using hpc
      · exact hall x h2

end Hwapi

namespace CpuMod

open Hwapi

/-- Every candidate score is at least `-20` (each mismatch costs 10 and the
tag bonus is nonnegative), hence above the loop's initial `-100`. -/
theorem score_entry_ge (q e : IndexEntry) : -20 ≤ score_entry q e := by
  unfold score_entry
  have h5 : (0 : Int) ≤ 5 * ((q.tags.filter (fun t => e.tags.contains t)).length : Int) := by
    positivity
  by_cases h1 : q.pfx ≠ e.pfx <;> by_cases h2 : q.suffix ≠ e.suffix <;>
    simp [h1, h2] <;> omega

/-- When no remaining candidate beats the running best score, the
best-candidate loop returns the running best unchanged. -/
theorem select_best_go_none (q : IndexEntry) (l : List IndexEntry) :
    ∀ (s : Int) (b : Option IndexEntry),
      (∀ e ∈ l, score_entry q e ≤ s) → select_best_go q s b l = b := by
  induction l with
  | nil => intro s b _; rfl
  | cons c rest ih =>
    intro s b h
    have hc : score_entry q c ≤ s := h c (List.mem_cons_self c rest)
    unfold select_best_go
    rw [if_neg (by omega)]
    exact ih s b (fun e he => h e (List.mem_cons_of_mem _ he))

/-- When some remaining candidate beats the running best score, the loop
returns the first candidate attaining the maximal score: it is preceded only
by strictly lower-scoring candidates and bounds every candidate's score. -/
theorem select_best_go_spec (q : IndexEntry) (l : List IndexEntry) :
    ∀ (s : Int) (b : Option IndexEntry),
      (∃ e ∈ l, s < score_entry q e) →
      ∃ l₁ m l₂, l = l₁ ++ m :: l₂ ∧ select_best_go q s b l = some m ∧
        s < score_entry q m ∧
        (∀ e ∈ l₁, score_entry q e < score_entry q m) ∧
        (∀ e ∈ l, score_entry q e ≤ score_entry q m) := by
  induction l with
  | nil => intro s b h; simp at h
  | cons c rest ih =>
    intro s b h
    by_cases hc : s < score_entry q c
    · unfold select_best_go
      rw [if_pos (by omega)]
      by_cases hrest : ∃ e ∈ rest, score_entry q c < score_entry q e
      · obtain ⟨l₁, m, l₂, hdec, hrun, hlt, hfirst, hall⟩ :=
          ih (score_entry q c) (some c) hrest
        refine ⟨c :: l₁, m, l₂, by simp [hdec], hrun, by omega, ?_, ?_⟩
        · intro e he
          rcases List.mem_cons.mp he with h1 | h2
          · subst h1; omega
          · exact hfirst e h2
        · intro e he
          rcases List.mem_cons.mp he with h1 | h2
          · subst h1; omega
          · exact hall e h2
      · push_neg at hrest
        refine ⟨[], c, rest, rfl, ?_, hc, by simp, ?_⟩
        · exact select_best_go_none q rest (score_entry q c) (some c) hrest
        · intro e he
          rcases List.mem_cons.mp he with h1 | h2
          · subst h1; omega
          · exact hrest e h2
    · unfold select_best_go
      rw [if_neg (by omega)]
      have hrest : ∃ e ∈ rest, s < score_entry q e := by
        obtain ⟨e, he, hse⟩ := h
        rcases List.mem_cons.mp he with h1 | h2
        · subst h1; omega
        · exact ⟨e, h2, hse⟩
      obtain ⟨l₁, m, l₂, hdec, hrun, hlt, hfirst, hall⟩ := ih s b hrest
      refine ⟨c :: l₁, m, l₂, by simp [hdec], hrun, hlt, ?_, ?_⟩
      · intro e he
        rcases List.mem_cons.mp he with h1 | h2
        · subst h1; omega
        · exact hfirst e h2
      · intro e he
        rcases List.mem_cons.mp he with h1 | h2
        · subst h1; omega
        · exact hall e h2

/-- When no remaining token beats the running high score, the token loop of
`find_model` returns the running best fit unchanged. -/
theorem find_model_go_none (l : List (List Char)) :
    ∀ (b : List Char) (s : Int),
      (∀ t ∈ l, calculate_model_score t ≤ s) → find_model_go b s l = b := by
  induction l with
  | nil => intro b s _; rfl
  | cons c rest ih =>
    intro b s h
    have hc := h c (List.mem_cons_self c rest)
    unfold find_model_go
    rw [if_neg (by omega)]
    exact ih b s (fun t ht => h t (List.mem_cons_of_mem _ ht))

/-- When some remaining token beats the running high score, the token loop of
`find_model` returns the first token attaining the maximal score. -/
theorem find_model_go_spec (l : List (List Char)) :
    ∀ (b : List Char) (s : Int),
      (∃ t ∈ l, s < calculate_model_score t) →
      ∃ l₁ m l₂, l = l₁ ++ m :: l₂ ∧ find_model_go b s l = m ∧
        s < calculate_model_score m ∧
        (∀ t ∈ l₁, calculate_model_score t < calculate_model_score m) ∧
        (∀ t ∈ l, calculate_model_score t ≤ calculate_model_score m) := by
  induction l with
  | nil => intro b s h; simp at h
  | cons c rest ih =>
    intro b s h
    by_cases hc : s < calculate_model_score c
    · unfold find_model_go
      rw [if_pos (by omega)]
      by_cases hrest : ∃ t ∈ rest, calculate_model_score c < calculate_model_score t
      · obtain ⟨l₁, m, l₂, hdec, hrun, hlt, hfirst, hall⟩ :=
          ih c (calculate_model_score c) hrest
        refine ⟨c :: l₁, m, l₂, by simp [hdec], hrun, by omega, ?_, ?_⟩
        · intro t ht
          rcases List.mem_cons.mp ht with h1 | h2
          · subst h1; omega
          · exact hfirst t h2
        · intro t ht
          rcases List.mem_cons.mp ht with h1 | h2
          · subst h1; omega
          · exact hall t h2
      · push_neg at hrest
        refine ⟨[], c, rest, rfl, ?_, hc, by simp, ?_⟩
        · exact find_model_go_none rest c (calculate_model_score c) hrest
        · intro t ht
          rcases List.mem_cons.mp ht with h1 | h2
          · subst h1; omega
          · exact hrest t h2
    · unfold find_model_go
      rw [if_neg (by omega)]
      have hrest : ∃ t ∈ rest, s < calculate_model_score t := by
        obtain ⟨t, ht, hst⟩ := h
        rcases List.mem_cons.mp ht with h1 | h2
        · subst h1; omega
        · exact ⟨t, h2, hst⟩
      obtain ⟨l₁, m, l₂, hdec, hrun, hlt, hfirst, hall⟩ := ih b s hrest
      refine ⟨c :: l₁, m, l₂, by simp [hdec], hrun, hlt, ?_, ?_⟩
      · intro t ht
        rcases List.mem_cons.mp ht with h1 | h2
        · subst h1; omega
        · exact hfirst t h2
      · intro t ht
        rcases List.mem_cons.mp ht with h1 | h2
        · subst h1; omega
        · exact hall t h2

/-- `generate_index_entry` always succeeds: the only fallible combinator in
its body, the complete `take_while`, cannot fail, so the source's error
branch is unreachable. -/
theorem generate_index_entry_ok (name : List Char) (i : Nat) :
    ∃ e, generate_index_entry name i = Except.ok e :=
  ⟨_, rfl⟩

/-- The index-construction loop keeps exactly one entry per catalog name. -/
theorem build_index_go_length (names : List (List Char)) :
    ∀ i : Nat, (build_index_go i names).length = names.length := by
  induction names with
  | nil => intro i; rfl
  | cons c rest ih =>
    intro i
    obtain ⟨e, he⟩ := generate_index_entry_ok c i
    simp [build_index_go, he, ih]

/-- The per-character scoring step, accumulated: the fold adds
`2·(digit count) − 4·(blacklist count)` to the accumulator. -/
theorem calculate_model_score_go (l : List Char) :
    ∀ acc : Int,
      l.foldl
        (fun score c =>
          (score + (if c.isDigit then 2 else 0)) + (if c ∈ ['.', '(', ')'] then -4 else 0))
        acc
      = acc + 2 * ((l.filter Char.isDigit).length : Int)
          - 4 * ((l.filter (fun c => decide (c ∈ ['.', '(', ')']))).length : Int) := by
  induction l with
  | nil => intro acc; simp
  | cons c rest ih =>
    intro acc
    rw [List.foldl_cons, ih]
    by_cases hd : c.isDigit <;> by_cases hb : c = '.' ∨ c = '(' ∨ c = ')' <;>
      simp [hd, hb, List.filter_cons, List.mem_cons, List.mem_singleton] <;> omega

end CpuMod


namespace IntelCsv

/-- Attribute collection for column `i` succeeds exactly when every record
is long enough; here the success direction. -/
theorem cpu_attrs_some_of (i : Nat) (records : List (List (List Char))) :
    (∀ r ∈ records, i + 1 < r.length) →
    ∃ attrs, cpu_attrs i records = some attrs := by
  induction records with
  | nil => intro _; exact ⟨[], rfl⟩
  | cons r rest ih =>
    intro h
    have hr : i + 1 < r.length := h r (List.mem_cons_self r rest)
    obtain ⟨attrs, hattrs⟩ := ih (fun x hx => h x (List.mem_cons_of_mem _ hx))
    have hg : r[i + 1]? = some r[i + 1] := List.getElem?_eq_getElem hr
    have hnil : r ≠ [] := by
      intro hn
      rw [hn] at hr
      simp at hr
    have hh : r.head? = some (r.head hnil) := List.head?_eq_head hnil
    unfold cpu_attrs
    rw [hg]
    by_cases he : (r[i + 1]).isEmpty
    · simp only [he, if_true]
      exact ⟨attrs, hattrs⟩
    · simp only [he, Bool.false_eq_true, if_false, hh, hattrs]
      exact ⟨_, rfl⟩

/-- Attribute collection for column `i` panics (is `none`) as soon as one
record is too short for that column. -/
theorem cpu_attrs_none_of (i : Nat) (records : List (List (List Char)))
    (r : List (List Char)) (hr : r ∈ records) (hlen : r.length ≤ i + 1) :
    cpu_attrs i records = none := by
  induction records with
  | nil => simp at hr
  | cons c rest ih =>
    unfold cpu_attrs
    rcases List.mem_cons.mp hr with h1 | h2
    · subst h1
      have hg : r[i + 1]? = none := List.getElem?_eq_none_iff.mpr hlen
      rw [hg]
    · have hrest := ih h2
      cases hg : getElem? c (i + 1) with
      | none => rfl
      | some entry =>
        by_cases he : entry.isEmpty
        · simp only [he, if_true, hrest]
        · simp only [he, Bool.false_eq_true, if_false, hrest]
          cases c.head? <;> rfl

/-- The per-column loop builds one `Cpu` per name when every record is long
enough for every column. -/
theorem parse_go_some (records : List (List (List Char))) :
    ∀ (cpusL : List (List Char)) (i : Nat),
      (∀ r ∈ records, i + cpusL.length < r.length) →
      ∃ l, parse_csv_go records i cpusL = some l ∧ l.length = cpusL.length := by
  intro cpusL
  induction cpusL with
  | nil => intro i _; exact ⟨[], rfl, rfl⟩
  | cons name rest ih =>
    intro i h
    have hcol : ∀ r ∈ records, i + 1 < r.length := by
      intro r hr
      have := h r hr
      simp only [List.length_cons] at this
      omega
    obtain ⟨attrs, hattrs⟩ := cpu_attrs_some_of i records hcol
    obtain ⟨l, hl, hlen⟩ := ih (i + 1) (by
      intro r hr
      have := h r hr
      simp only [List.length_cons] at this
      omega)
    unfold parse_csv_go
    rw [hattrs]
    simp only [hl]
    exact ⟨_, rfl, by simp [hlen]⟩

/-- The per-column loop loses everything (`none`, a panic) as soon as one
record is too short for one of its columns. -/
theorem parse_go_none (records : List (List (List Char))) :
    ∀ (cpusL : List (List Char)) (i : Nat) (r : List (List Char)),
      r ∈ records → r.length ≤ i + cpusL.length → cpusL ≠ [] →
      parse_csv_go records i cpusL = none := by
  intro cpusL
  induction cpusL with
  | nil => intro i r _ _ hne; exact absurd rfl hne
  | cons name rest ih =>
    intro i r hr hlen _
    by_cases hrest : rest = []
    · subst hrest
      have hnone : cpu_attrs i records = none := by
        refine cpu_attrs_none_of i records r hr ?_
        simp only [List.length_cons, List.length_nil] at hlen
        omega
      unfold parse_csv_go
      rw [hnone]
    · have hnone : parse_csv_go records (i + 1) rest = none := by
        refine ih (i + 1) r hr ?_ hrest
        simp only [List.length_cons] at hlen
        omega
      unfold parse_csv_go
      cases hattrs : cpu_attrs i records with
      | none => rfl
      | some attrs => simp only [hnone]

end IntelCsv


namespace Hwapi

/-- nom `take(1)` on a cons cell takes exactly the head. -/
theorem nomTake_one_cons (c : Char) (r : List Char) :
    nomTake 1 (c :: r) = some (r, [c]) := by
  simp [nomTake]

/-- nom `take(1)` where the head sits in front of an appended literal. -/
theorem nomTake_one_cons_append (c : Char) (l r : List Char) :
    nomTake 1 ((c :: l) ++ r) = some (l ++ r, [c]) := by
  simp [nomTake]

/-- nom `take(n)` consuming the whole remaining input. -/
theorem nomTake_exact (n : Nat) (l : List Char) (h : l.length = n) :
    nomTake n l = some ([], l) := by
  subst h
  simp [nomTake, List.drop_length, List.take_length]

/-- nom `char(c)` where the expected character heads an appended literal. -/
theorem nomChar_cons_append (c : Char) (l r : List Char) :
    nomChar c ((c :: l) ++ r) = some (l ++ r, c) := by
  simp [nomChar]

/-- A hex-4 field is nonempty, so `from_str_radix` accepts it. -/
theorem fromStrRadix16_of_isHex4 (s : List Char) (h : isHex4 s) :
    fromStrRadix16 s = some (hexValue s) := by
  refine fromStrRadix16_hex s ?_ h.2
  intro hnil
  rw [hnil] at h
  simp [isHex4] at h

end Hwapi

namespace Pcie

open Hwapi

/-- The `"&SU"` lookahead accepts every remainder that starts with the full
`"&SUBSYS_"` tag. -/
theorem su_lookahead_subsys (x : List Char) :
    (['&', 'S', 'U'] : List Char).isPrefixOf
      (['&', 'S', 'U', 'B', 'S', 'Y', 'S', '_'] ++ x) = true := by
  have h : (['&', 'S', 'U', 'B', 'S', 'Y', 'S', '_'] : List Char)
      = ['&', 'S', 'U'] ++ ['B', 'S', 'Y', 'S', '_'] := by decide
  rw [h, List.append_assoc]
  exact isPrefixOf_append_self _ _

/-- The `"&SU"` lookahead rejects an empty remainder. -/
theorem su_lookahead_nil :
    (['&', 'S', 'U'] : List Char).isPrefixOf ([] : List Char) = false := by
  decide

/-- The `"&SU"` lookahead rejects a remainder starting with `"&REV_"`. -/
theorem su_lookahead_rev (x : List Char) :
    (['&', 'S', 'U'] : List Char).isPrefixOf (['&', 'R', 'E', 'V', '_'] ++ x) = false := by
  simp [List.cons_append, List.isPrefixOf, show (('S' : Char) == 'R') = false from rfl]

/-- The `"&SU"` lookahead rejects a remainder starting with `"&CC_"`. -/
theorem su_lookahead_cc (x : List Char) :
    (['&', 'S', 'U'] : List Char).isPrefixOf (['&', 'C', 'C', '_'] ++ x) = false := by
  simp [List.cons_append, List.isPrefixOf, show (('S' : Char) == 'C') = false from rfl]

end Pcie


namespace CpuMod

open Hwapi

/-- Specification of the tail of `CpuCache::find` after the catalog branch
has been selected: the filtered candidates `sim` either are empty — then the
result is the error `"No close matches found"` — or the result is the
catalog entry referenced by the first candidate attaining the maximal
score. -/
theorem select_and_fetch_spec (q : IndexEntry) (sim : List IndexEntry)
    (cpus : List Cpu) (r : CpuFindResult)
    (hbound : ∀ e ∈ sim, e.index < cpus.length)
    (hr : r =
      (match select_best_go q (-100) none sim with
        | none => CpuFindResult.err ("No close matches found".data)
        | some idx_entry =>
          match cpus[idx_entry.index]? with
          | none => CpuFindResult.panic
          | some cpu => CpuFindResult.ok cpu)) :
    (r = CpuFindResult.err ("No close matches found".data) ↔ sim = [])
    ∧ (sim ≠ [] → ∃ l₁ best l₂, sim = l₁ ++ best :: l₂
        ∧ (∀ e ∈ l₁, score_entry q e < score_entry q best)
        ∧ (∀ e ∈ sim, score_entry q e ≤ score_entry q best)
        ∧ ∃ hlt : best.index < cpus.length, r = CpuFindResult.ok (cpus.get ⟨best.index, hlt⟩)) := by
  cases sim with
  | nil =>
    constructor
    · simp [hr, select_best_go]
    · intro hne
      exact absurd rfl hne
  | cons e rest =>
    have hex : ∃ x ∈ e :: rest, (-100 : Int) < score_entry q x :=
      ⟨e, List.mem_cons_self e rest, by have := score_entry_ge q e; omega⟩
    obtain ⟨l₁, m, l₂, hdec, hrun, _, hfirst, hall⟩ :=
      select_best_go_spec q (e :: rest) (-100) none hex
    have hmem : m ∈ e :: rest := by
      rw [hdec]
      exact List.mem_append_right _ (List.mem_cons_self m l₂)
    have hlt : m.index < cpus.length := hbound m hmem
    have hget : cpus[m.index]? = some cpus[m.index] := List.getElem?_eq_getElem hlt
    simp only [hrun, hget] at hr
    constructor
    · rw [hr]
      simp
    · intro _
      refine ⟨l₁, m, l₂, hdec, hfirst, hall, hlt, ?_⟩
      rw [hr]
      simp [List.get_eq_getElem]

end CpuMod

/-! ### Claim theorems -/

namespace Claims

open Hwapi

/-- C1, counterexample: for the identifier `PCI\VEN_1022&DEV_1633&SUBSYS_77771022&REV_00`
(parsed subsystem id `0x7777`) against a cache whose matching device has a
subsystem with exactly id `0x7777` first in its list, `PcieCache::find`
returns the subsystem with id `0x1633` — the parsed *device* id — and not
the first subsystem whose id equals the parsed subsystem id. -/
theorem C1_counterexample :
    Pcie.parse_device_identifier Examples.pcieInputA = .ok (0x1022, 0x1633, some 0x7777)
    ∧ Examples.pcieCacheA.find Examples.pcieInputA
        = .ok (some Examples.pcieVendorA, some Examples.pcieDeviceA,
            some { id := 0x1633, name := "by device id".data })
    ∧ Examples.pcieDeviceA.subsystems.find? (fun s => s.id == 0x7777)
        = some { id := 0x7777, name := "by subsystem id".data }
    ∧ ({ id := 0x1633, name := "by device id".data } : Pcie.Subsystem)
        ≠ { id := 0x7777, name := "by subsystem id".data } := by
  decide

/-- C2, counterexample: for the CPU name
`"AMD Ryzen 5 3400G with Radeon Vega Graphics"` the extracted model token is
`"3400G"`, yet `generate_index_entry` stores `"G"` in `model` and `"3400"` in
`suffix` — not `model = "3400"`, `suffix = "G"` as claimed. -/
theorem C2_counterexample :
    CpuMod.find_model ("AMD Ryzen 5 3400G with Radeon Vega Graphics".data) = "3400G".data
    ∧ ((CpuMod.generate_index_entry
          ("AMD Ryzen 5 3400G with Radeon Vega Graphics".data) 0).toOption.map
        CpuMod.IndexEntry.model) = some ['G']
    ∧ ((CpuMod.generate_index_entry
          ("AMD Ryzen 5 3400G with Radeon Vega Graphics".data) 0).toOption.map
        CpuMod.IndexEntry.suffix) = some "3400".data
    ∧ (['G'] ≠ "3400".data) := by
  decide

/-- C3: the identifier grammar parsers return a structured error when the
literal prefix is absent or a 4-character field is missing, but an existing
4-character field that is *not* hex (for example `WXYZ`) reaches
`u16::from_str_radix(..).unwrap()` and panics instead of returning an
error — the input `PCI\VEN_WXYZ&DEV_0000` crashes rather than erroring,
against the claim (and the stated intent of the code's own TODO). -/
theorem C3_nonhex_field_panics :
    Pcie.parse_device_identifier ("PCI\\VEN_WXYZ&DEV_0000".data) = .panic
    ∧ Usb.parse_device_identifier ("USB\\VID_WXYZ&PID_0000".data) = .panic
    ∧ Pcie.parse_device_identifier ("PCI\\VEN_12".data) = .err
    ∧ Pcie.parse_device_identifier ("XYZPCI\\VEN_1234&DEV_5678".data) = .err
    ∧ Usb.parse_device_identifier ("USB\\VID_12".data) = .err
    ∧ Usb.parse_device_identifier ("VID_1234&PID_5678".data) = .err := by
  decide

/-- C4, counterexample: the name `"AMD Engineering Sample"` has model token
`"AMD"`, which has no leading ASCII digit after dash-splitting, yet
`generate_index_entry` succeeds (complete `take_while` cannot fail) and the
index keeps one entry for it, so the index count is *not* strictly smaller. -/
theorem C4_counterexample :
    CpuMod.find_model ("AMD Engineering Sample".data) = "AMD".data
    ∧ ("AMD".data).takeWhile Char.isDigit = []
    ∧ (CpuMod.generate_index_entry ("AMD Engineering Sample".data) 0).toOption.isSome = true
    ∧ (CpuMod.build_index [("AMD Engineering Sample".data)]).length = 1 := by
  decide

/-- C5, counterexample: with two CPU name columns but an attribute record of
only 2 cells, the per-column loop of `parse_csv` hits `record[2]` out of
bounds and the whole parse is lost (modelled `none`); the second CPU is not
"omitted with the rest returned". -/
theorem C5_counterexample :
    IntelCsv.parse_csv_columns ["a".data, "b".data] [["L".data, "x".data]] = none
    ∧ (["L".data, "x".data] : List (List Char)).length < 2 + 1 := by
  decide

/-- C7, counterexample: for the input `"((("` every token scores at most the
initial high score `-10`, so the token loop returns the initial empty best
fit `""`, which is not a token of the input at all — the base selection does
not always return a token of the input. -/
theorem C7_counterexample :
    CpuMod.splitChar ' ' ("(((".data) = [['(', '(', '(']]
    ∧ CpuMod.find_model_base ("(((".data) = []
    ∧ ([] : List Char) ∉ CpuMod.splitChar ' ' ("(((".data) := by
  decide


/-- C2, amended: `generate_index_entry` always succeeds and, writing `t` for
the extracted model token, stores in `prefix` the part of `t` from the first
`'-'` to the end (empty when `t` has no `'-'`), in `suffix` the leading run
of ASCII digits of the part of `t` before the `'-'`, and in `model` what
remains of that pre-dash part after the digit run (the nom pair components
are destructured in swapped order relative to the claim). -/
theorem C2_index_fields (name : List Char) (i : Nat) :
    ∃ e, CpuMod.generate_index_entry name i = Except.ok e
      ∧ e.pfx = (CpuMod.find_model name).dropWhile (fun c => c != '-')
      ∧ e.suffix
          = ((CpuMod.find_model name).takeWhile (fun c => c != '-')).takeWhile Char.isDigit
      ∧ e.model
          = ((CpuMod.find_model name).takeWhile (fun c => c != '-')).dropWhile Char.isDigit := by
  unfold CpuMod.generate_index_entry
  by_cases hm : '-' ∈ CpuMod.find_model name
  · simp only [takeUntil_singleton, takeWhileNom_eq, hm, if_true]
    exact ⟨_, rfl, rfl, rfl, rfl⟩
  · have hforall : ∀ x ∈ CpuMod.find_model name, (x != '-') = true := by
      intro x hx
      rw [bne_iff_ne]
      intro heq
      exact hm (heq ▸ hx)
    have h1 : (CpuMod.find_model name).takeWhile (fun c => c != '-')
        = CpuMod.find_model name := List.takeWhile_eq_self_iff.mpr hforall
    have h2 : (CpuMod.find_model name).dropWhile (fun c => c != '-') = [] :=
      List.dropWhile_eq_nil_iff.mpr hforall
    simp only [takeUntil_singleton, takeWhileNom_eq, hm, if_false, h1, h2]
    exact ⟨_, rfl, rfl, rfl, rfl⟩

/-- C4, amended: index generation never fails (the complete `take_while`
cannot fail, so the error branch of `generate_index_entry` is dead), hence
the index loop of `CpuCache::new` skips nothing: each catalog's index-entry
count always *equals* its Cpu count, and is never strictly smaller. -/
theorem C4_index_never_skips (names : List (List Char)) :
    (CpuMod.build_index names).length = names.length
    ∧ ∀ (name : List Char) (i : Nat),
        (CpuMod.generate_index_entry name i).toOption.isSome = true := by
  constructor
  · exact CpuMod.build_index_go_length names 0
  · intro name i
    obtain ⟨e, he⟩ := CpuMod.generate_index_entry_ok name i
    rw [he]
    rfl



/-- C5, amended: an attribute record lacking a CPU's column is not logged
and the entry is not omitted — the direct indexing `record[i + 1]`
goes out of bounds and panics, losing the whole `parse_csv` result; when
every record has at least one more cell than there are CPU names, the loop
returns exactly one `Cpu` per name. -/
theorem C5_missing_column_aborts (cpus : List (List Char))
    (records : List (List (List Char))) :
    ((∀ r ∈ records, cpus.length + 1 ≤ r.length) →
      ∃ l, IntelCsv.parse_csv_columns cpus records = some l ∧ l.length = cpus.length)
    ∧ ((∃ r ∈ records, r.length < cpus.length + 1) → cpus ≠ [] →
      IntelCsv.parse_csv_columns cpus records = none) := by
  constructor
  · intro h
    exact IntelCsv.parse_go_some records cpus 0 (fun r hr => by have := h r hr; omega)
  · rintro ⟨r, hr, hlen⟩ hne
    exact IntelCsv.parse_go_none records cpus 0 r hr (by omega) hne

/-- C5, witness: one CPU name and one record of two cells: the hypothesis of
the success branch holds and the loop returns a single `Cpu`. -/
theorem C5_witness :
    (∀ r ∈ ([["L".data, "x".data]] : List (List (List Char))),
      ([("a".data)] : List (List Char)).length + 1 ≤ r.length)
    ∧ ∃ l, IntelCsv.parse_csv_columns [("a".data)] [["L".data, "x".data]] = some l
        ∧ l.length = ([("a".data)] : List (List Char)).length :=
  ⟨by decide, (C5_missing_column_aborts [("a".data)] [["L".data, "x".data]]).1 (by decide)⟩



/-- C8: for all 4-hex-digit fields `v`, `d`, `s`, parsing
`PCI\VEN_<v>&DEV_<d>&SUBSYS_<s><anything>` yields `(v, d, Some s)` — only
the 4 characters right after `SUBSYS_` matter — and parsing
`PCI\VEN_<v>&DEV_<d>` followed by nothing, by `&REV_...`, or by `&CC_...`
yields `(v, d, None)`: the trailing segments never affect the result. -/
theorem C8_pci_identifier_grammar (v d s u r : List Char)
    (hv : isHex4 v) (hd : isHex4 d) (hs : isHex4 s)
    (hr : r = [] ∨ (∃ t, r = "&REV_".data ++ t) ∨ (∃ t, r = "&CC_".data ++ t)) :
    Pcie.parse_device_identifier
        ("PCI\\VEN_".data ++ v ++ ['&'] ++ "DEV_".data ++ d ++ "&SUBSYS_".data ++ s ++ u)
      = .ok (hexValue v, hexValue d, some (hexValue s))
    ∧ Pcie.parse_device_identifier
        ("PCI\\VEN_".data ++ v ++ ['&'] ++ "DEV_".data ++ d ++ r)
      = .ok (hexValue v, hexValue d, none) := by
  have htkv : ∀ X, nomTake 4 (v ++ X) = some (X, v) := fun X => nomTake_append 4 v X hv.1
  have htkd : ∀ X, nomTake 4 (d ++ X) = some (X, d) := fun X => nomTake_append 4 d X hd.1
  have htks : ∀ X, nomTake 4 (s ++ X) = some (X, s) := fun X => nomTake_append 4 s X hs.1
  have hfv := fromStrRadix16_of_isHex4 v hv
  have hfd := fromStrRadix16_of_isHex4 d hd
  have hfs := fromStrRadix16_of_isHex4 s hs
  have htkd0 : nomTake 4 d = some ([], d) := nomTake_exact 4 d hd.1
  constructor
  · unfold Pcie.parse_device_identifier
    simp only [List.append_assoc, List.singleton_append]
    simp only [nomTag_self_append, htkv, nomChar_cons, nomChar_cons_append, htkd,
      Pcie.su_lookahead_subsys, if_true, htks, hfv, hfd, hfs]
  · unfold Pcie.parse_device_identifier
    simp only [List.append_assoc, List.singleton_append]
    simp only [nomTag_self_append, htkv, nomChar_cons, nomChar_cons_append, htkd]
    rcases hr with h0 | ⟨t, ht⟩ | ⟨t, ht⟩
    · subst h0
      simp only [List.append_nil, htkd0, Pcie.su_lookahead_nil, Bool.false_eq_true,
        if_false, hfv, hfd]
    · subst ht
      simp only [Pcie.su_lookahead_rev, Bool.false_eq_true, if_false, hfv, hfd]
    · subst ht
      simp only [Pcie.su_lookahead_cc, Bool.false_eq_true, if_false, hfv, hfd]

/-- C8, witness: the documented example identifiers, with `v = "1234"`,
`d = "5678"`, `s = "9123"`, a `SUBSYS` tail `"1022&REV_00"` and the
alternative trailing segment `"&CC_112200"`. -/
theorem C8_witness :
    isHex4 ("1234".data) ∧ isHex4 ("5678".data) ∧ isHex4 ("9123".data)
    ∧ Pcie.parse_device_identifier
        ("PCI\\VEN_".data ++ "1234".data ++ ['&'] ++ "DEV_".data ++ "5678".data
          ++ "&SUBSYS_".data ++ "9123".data ++ "1022&REV_00".data)
      = .ok (hexValue ("1234".data), hexValue ("5678".data), some (hexValue ("9123".data)))
    ∧ Pcie.parse_device_identifier
        ("PCI\\VEN_".data ++ "1234".data ++ ['&'] ++ "DEV_".data ++ "5678".data
          ++ "&CC_112200".data)
      = .ok (hexValue ("1234".data), hexValue ("5678".data), none) := by
  have h := C8_pci_identifier_grammar ("1234".data) ("5678".data) ("9123".data)
    ("1022&REV_00".data) ("&CC_112200".data) (by decide) (by decide) (by decide)
    (Or.inr (Or.inr ⟨"112200".data, by decide⟩))
  exact ⟨by decide, by decide, by decide, h.1, h.2⟩

/-- C9: `UsbCache::find` returns a structured error exactly when the
identifier parse returns one; on a successful parse a missing vendor yields
`(None, None)`, a found vendor is returned together with the first of its
devices carrying the parsed product id (`None` when there is none), and a
device is never returned without its vendor. -/
theorem C9_usb_find_spec (cache : Usb.UsbCache) (input : List Char) :
    (cache.find input = .err ↔ Usb.parse_device_identifier input = .err)
    ∧ (∀ vid pid, Usb.parse_device_identifier input = .ok (vid, pid) →
        (cache.vendors.find? (fun v => v.id == vid) = none →
          cache.find input = .ok (none, none))
        ∧ (∀ ven, cache.vendors.find? (fun v => v.id == vid) = some ven →
            cache.find input = .ok (some ven, ven.devices.find? (fun d => d.id == pid))))
    ∧ (∀ dev, cache.find input ≠ .ok (none, some dev)) := by
  unfold Usb.UsbCache.find
  cases hp : Usb.parse_device_identifier input with
  | err =>
    refine ⟨by simp, ?_, by simp⟩
    intro vid pid h
    exact absurd h (by simp)
  | panic =>
    refine ⟨by simp, ?_, by simp⟩
    intro vid pid h
    exact absurd h (by simp)
  | ok parsed =>
    refine ⟨by simp, ?_, ?_⟩
    · intro vid pid h
      have hparsed : parsed = (vid, pid) := by
        cases h
        rfl
      subst hparsed
      constructor
      · intro hv
        simp only [hv]
      · intro ven hv
        simp only [hv]
    · intro dev
      cases hv : cache.vendors.find? (fun v => v.id == parsed.1) with
      | none => simp [hv]
      | some ven => simp [hv]

/-- C9, witness: the empty cache and the documented USB identifier: the
parse succeeds with `(0x1234, 0x5678)`, no vendor matches, and `find`
returns `(None, None)`. -/
theorem C9_witness :
    Usb.parse_device_identifier Examples.usbInputA = .ok (0x1234, 0x5678)
    ∧ Examples.usbCacheA.vendors.find? (fun v => v.id == 0x1234) = none
    ∧ Examples.usbCacheA.find Examples.usbInputA = .ok (none, none) :=
  ⟨by decide, by decide,
    ((C9_usb_find_spec Examples.usbCacheA Examples.usbInputA).2.1 0x1234 0x5678
      (by decide)).1 (by decide)⟩

/-- C10: in the USB identifier grammar the character between the 4-hex VID
field and `PID_` is consumed positionally (`take(1)`), never matched against
`'&'`: any single separator character works. -/
theorem C10_usb_separator_positional (v p t : List Char) (c : Char)
    (hv : isHex4 v) (hp : isHex4 p) :
    Usb.parse_device_identifier
        ("USB\\VID_".data ++ v ++ [c] ++ "PID_".data ++ p ++ t)
      = .ok (hexValue v, hexValue p) := by
  have htkv : ∀ X, nomTake 4 (v ++ X) = some (X, v) := fun X => nomTake_append 4 v X hv.1
  have htkp : ∀ X, nomTake 4 (p ++ X) = some (X, p) := fun X => nomTake_append 4 p X hp.1
  have hfv := fromStrRadix16_of_isHex4 v hv
  have hfp := fromStrRadix16_of_isHex4 p hp
  unfold Usb.parse_device_identifier
  simp only [List.append_assoc, List.singleton_append]
  simp only [nomTag_self_append, htkv, nomTake_one_cons, nomTake_one_cons_append,
    htkp, hfv, hfp]

/-- C10, witness: `v = "1234"`, `p = "5678"`, separator `'x'` in place of
`'&'`, trailing serial text: the parse still succeeds. -/
theorem C10_witness :
    isHex4 ("1234".data) ∧ isHex4 ("5678".data)
    ∧ Usb.parse_device_identifier
        ("USB\\VID_".data ++ "1234".data ++ ['x'] ++ "PID_".data ++ "5678".data
          ++ "\\9479493".data)
      = .ok (hexValue ("1234".data), hexValue ("5678".data)) :=
  ⟨by decide, by decide,
    C10_usb_separator_positional ("1234".data) ("5678".data) ("\\9479493".data) 'x'
      (by decide) (by decide)⟩



/-- C1, amended: when the identifier parses (with any subsystem field) and
the vendor and device lookups succeed, `PcieCache::find` returns the first
subsystem in the found device's list whose id equals the parsed *device* id
`did` (`None` when no subsystem has id `did`); the parsed subsystem id is
ignored by the search. -/
theorem C1_find_subsystem_by_parsed_device_id
    (cache : Pcie.PcieCache) (input : List Char)
    (vid did : Nat) (ssid : Option Nat) (ven : Pcie.Vendor) (dev : Pcie.Device)
    (hp : Pcie.parse_device_identifier input = .ok (vid, did, ssid))
    (hv : cache.vendors.find? (fun v => v.id == vid) = some ven)
    (hd : ven.devices.find? (fun d => d.id == did) = some dev) :
    cache.find input
      = .ok (some ven, some dev, dev.subsystems.find? (fun s => s.id == did))
    ∧ (dev.subsystems.find? (fun s => s.id == did) = none
        ↔ ∀ s ∈ dev.subsystems, s.id ≠ did)
    ∧ (∀ sub, dev.subsystems.find? (fun s => s.id == did) = some sub →
        sub.id = did ∧ ∃ l₁ l₂, dev.subsystems = l₁ ++ sub :: l₂
          ∧ ∀ s ∈ l₁, s.id ≠ did) := by
  refine ⟨?_, ?_, ?_⟩
  · unfold Pcie.PcieCache.find
    simp only [hp, hv, hd]
  · simp [List.find?_eq_none]
  · intro sub hsub
    obtain ⟨hpred, l₁, l₂, hdec, hall⟩ := find_decomp _ _ _ hsub
    refine ⟨by simpa using hpred, l₁, l₂, hdec, ?_⟩
    intro x hx
    have := hall x hx
    simpa using this

/-- C1, witness: for the cache whose matching device has subsystems with ids
`0x7777` then `0x1633`, and the identifier parsing to
`(0x1022, 0x1633, some 0x7777)`, `find` returns the subsystem search keyed
by the parsed device id `0x1633`. -/
theorem C1_witness :
    Pcie.parse_device_identifier Examples.pcieInputA = .ok (0x1022, 0x1633, some 0x7777)
    ∧ Examples.pcieCacheA.find Examples.pcieInputA
        = .ok (some Examples.pcieVendorA, some Examples.pcieDeviceA,
            Examples.pcieDeviceA.subsystems.find? (fun s => s.id == 0x1633)) :=
  ⟨by decide,
    (C1_find_subsystem_by_parsed_device_id Examples.pcieCacheA Examples.pcieInputA
      0x1022 0x1633 (some 0x7777) Examples.pcieVendorA Examples.pcieDeviceA
      (by decide) (by decide) (by decide)).1⟩

/-- C7, amended: `calculate_model_score` is `+2` per ASCII digit and `−4`
per character in `{'.', '(', ')'}`; the base selection of `find_model`
returns the first space-separated token attaining the strictly-highest
score *provided* some token scores above the initial high score `−10`
(otherwise it returns the empty string, which is not a token); and the two
documented examples hold. -/
theorem C7_scoring_and_selection (token input : List Char)
    (h : ∃ t ∈ CpuMod.splitChar ' ' input, -10 < CpuMod.calculate_model_score t) :
    CpuMod.calculate_model_score token
        = 2 * ((token.filter Char.isDigit).length : Int)
          - 4 * ((token.filter (fun c => decide (c ∈ ['.', '(', ')']))).length : Int)
    ∧ (∃ l₁ m l₂, CpuMod.splitChar ' ' input = l₁ ++ m :: l₂
        ∧ CpuMod.find_model_base input = m
        ∧ (∀ t ∈ l₁, CpuMod.calculate_model_score t < CpuMod.calculate_model_score m)
        ∧ (∀ t ∈ CpuMod.splitChar ' ' input,
            CpuMod.calculate_model_score t ≤ CpuMod.calculate_model_score m))
    ∧ CpuMod.calculate_model_score ("i5-9400F".data)
        > CpuMod.calculate_model_score ("Intel(R)".data)
    ∧ CpuMod.find_model ("AMD Ryzen 5 3400G with Radeon Vega Graphics".data)
        = "3400G".data := by
  refine ⟨?_, ?_, by decide, by decide⟩
  · unfold CpuMod.calculate_model_score
    rw [CpuMod.calculate_model_score_go]
    omega
  · obtain ⟨l₁, m, l₂, hdec, hrun, _, hfirst, hall⟩ :=
      CpuMod.find_model_go_spec (CpuMod.splitChar ' ' input) [] (-10) h
    exact ⟨l₁, m, l₂, hdec, hrun, hfirst, hall⟩

/-- C7, witness: the empty input splits into the single empty token, which
scores 0, above the initial −10, discharging the hypothesis; the
documented comparison of the two example tokens follows. -/
theorem C7_witness :
    (∃ t ∈ CpuMod.splitChar ' ' ([] : List Char), -10 < CpuMod.calculate_model_score t)
    ∧ CpuMod.calculate_model_score ("i5-9400F".data)
        > CpuMod.calculate_model_score ("Intel(R)".data) :=
  ⟨⟨[], by decide, by decide⟩,
    (C7_scoring_and_selection [] [] ⟨[], by decide, by decide⟩).2.2.1⟩

/-- C6: `CpuCache::find` returns the error `"No close matches found"` if
and only if no index entry of the selected catalog (AMD when the input
contains `"AMD"`, Intel otherwise) has a `model` field equal to the query
entry's `model`; otherwise it returns exactly the catalog `Cpu` referenced
by the first candidate attaining the strictly-highest score (start 0, −10
per differing prefix or suffix, +5 per shared tag), never a default
record. -/
theorem C6_cpu_find_spec (cache : CpuMod.CpuCache) (input : List Char)
    (q : CpuMod.IndexEntry) (index : List CpuMod.IndexEntry) (cpus : List CpuMod.Cpu)
    (hq : CpuMod.generate_index_entry input 0 = Except.ok q)
    (hindex : index = (if CpuMod.isSubstring ("AMD".data) input then cache.amd_index
      else cache.intel_index))
    (hcpus : cpus = (if CpuMod.isSubstring ("AMD".data) input then cache.amd_cpus
      else cache.intel_cpus))
    (hbound : ∀ e ∈ index, e.index < cpus.length) :
    (cache.find input = .err ("No close matches found".data)
      ↔ index.filter (fun idx => idx.model == q.model) = [])
    ∧ (index.filter (fun idx => idx.model == q.model) ≠ [] →
        ∃ l₁ best l₂,
          index.filter (fun idx => idx.model == q.model) = l₁ ++ best :: l₂
          ∧ (∀ e ∈ l₁, CpuMod.score_entry q e < CpuMod.score_entry q best)
          ∧ (∀ e ∈ index.filter (fun idx => idx.model == q.model),
              CpuMod.score_entry q e ≤ CpuMod.score_entry q best)
          ∧ ∃ hlt : best.index < cpus.length,
              cache.find input = .ok (cpus.get ⟨best.index, hlt⟩)) := by
  have hbound' : ∀ e ∈ index.filter (fun idx => idx.model == q.model),
      e.index < cpus.length :=
    fun e he => hbound e (List.mem_of_mem_filter he)
  refine CpuMod.select_and_fetch_spec q
    (index.filter (fun idx => idx.model == q.model)) cpus (cache.find input) hbound' ?_
  subst hindex
  subst hcpus
  unfold CpuMod.CpuCache.find
  by_cases hAMD : CpuMod.isSubstring ("AMD".data) input = true
  · simp only [hq, hAMD, if_true]
  · have hAMD' : CpuMod.isSubstring ("AMD".data) input = false :=
      eq_false_of_ne_true hAMD
    simp only [hq, hAMD', Bool.false_eq_true, if_false]

/-- C6, witness: the one-entry AMD cache and the query `"AMD 9999"`, whose
generated entry is exactly the indexed entry: the filter is nonempty, so
`find` does not error and returns the single catalog record. -/
theorem C6_witness :
    CpuMod.generate_index_entry Examples.cpuInputA 0 = Except.ok Examples.idxA
    ∧ ((Examples.cpuCacheA.find Examples.cpuInputA
          = .err ("No close matches found".data)
        ↔ ([Examples.idxA] : List CpuMod.IndexEntry).filter
            (fun idx => idx.model == Examples.idxA.model) = [])
      ∧ (([Examples.idxA] : List CpuMod.IndexEntry).filter
            (fun idx => idx.model == Examples.idxA.model) ≠ [] →
          ∃ l₁ best l₂,
            ([Examples.idxA] : List CpuMod.IndexEntry).filter
              (fun idx => idx.model == Examples.idxA.model) = l₁ ++ best :: l₂
            ∧ (∀ e ∈ l₁, CpuMod.score_entry Examples.idxA e
                < CpuMod.score_entry Examples.idxA best)
            ∧ (∀ e ∈ ([Examples.idxA] : List CpuMod.IndexEntry).filter
                  (fun idx => idx.model == Examples.idxA.model),
                CpuMod.score_entry Examples.idxA e
                  ≤ CpuMod.score_entry Examples.idxA best)
            ∧ ∃ hlt : best.index < ([Examples.cpuA] : List CpuMod.Cpu).length,
                Examples.cpuCacheA.find Examples.cpuInputA
                  = .ok (([Examples.cpuA] : List CpuMod.Cpu).get ⟨best.index, hlt⟩))) :=
  ⟨by rfl,
    C6_cpu_find_spec Examples.cpuCacheA Examples.cpuInputA Examples.idxA
      [Examples.idxA] [Examples.cpuA] (by rfl) (by decide) (by decide) (by decide)⟩


end Claims
